import Mathlib

/-!
Verification development for the anchored-comment reconciliation engine of
the mukit document editor (frontend/src/components/ProseMirrorEditor.tsx,
frontend/src/pages/Document.tsx, frontend/src/components/CommentPanel.tsx,
frontend/src/hooks/useWebSocket.ts).

The embedding is shallow: every definition translates the corresponding
TypeScript source.  JavaScript numbers that hold document offsets are
modelled as `Int` (all offset arithmetic in the source is integral);
JavaScript `null`/`undefined`/`NaN` results are modelled as `Option`.
Asynchronous callbacks (debounce timers, WebSocket deliveries) are modelled
as explicit events consumed by a step function over the page state.
-/

namespace Mukit

/-! ### JavaScript string and number helpers

`parseIntJs` models `parseInt(s, 10)`: skip leading whitespace, read an
optional sign, then read a maximal run of decimal digits; the result is
`none` exactly when `parseInt` returns `NaN` (no digits).  `replacePosOnce`
models `s.replace('pos:', '')`: the first occurrence of the pattern is
removed. -/

def digitsToNat : List Char → Nat → Nat
  | [], acc => acc
  | c :: cs, acc => digitsToNat cs (acc * 10 + (c.toNat - '0'.toNat))

def parseIntSigned (sign : Int) (cs : List Char) : Option Int :=
  let ds := cs.takeWhile Char.isDigit
  if ds.isEmpty then none
  else some (sign * (digitsToNat ds 0 : Int))

def parseIntJs (s : String) : Option Int :=
  let cs := s.toList.dropWhile fun c => c == ' ' || c == '\t' || c == '\n' || c == '\r'
  match cs with
  | '-' :: rest => parseIntSigned (-1) rest
  | '+' :: rest => parseIntSigned 1 rest
  | rest => parseIntSigned 1 rest

/-- Drop `pat` from the head of a character list, if it is there. -/
def dropPat : List Char → List Char → Option (List Char)
  | cs, [] => some cs
  | [], _ :: _ => none
  | c :: cs, p :: ps => if c = p then dropPat cs ps else none

/-- Remove the first occurrence of `pat` from a character list. -/
def removeFirstOcc (pat : List Char) : List Char → List Char
  | [] => []
  | c :: cs =>
    match dropPat (c :: cs) pat with
    | some rest => rest
    | none => c :: removeFirstOcc pat cs

def replacePosOnce (s : String) : String :=
  String.mk (removeFirstOcc "pos:".toList s.toList)

/-- Parse a stored thread position: `parseInt(thread.position.replace('pos:', ''), 10)`
(ProseMirrorEditor.tsx, dispatchTransaction and updateMarkers). -/
def posFromString (s : String) : Option Int :=
  parseIntJs (replacePosOnce s)

/-! ### Position mapping (prosemirror-transform)

The editor maps anchor offsets through `tr.mapping.map(pos)` and
`tr.mapping.mapResult(pos)`.  These definitions embed the position-mapping
semantics of the external prosemirror-transform library that the source
invokes (StepMap ranges `[start, oldSize, newSize]`, forward association
`assoc = 1`, the default used by both call sites).  A transaction mapping
is the list of its non-inverted step maps; ordinary editing transactions
carry no mirrored step pairs, so the mirror shortcut of `Mapping._map` is
never taken and is not modelled. -/

def DEL_BEFORE : Nat := 1

def DEL_AFTER : Nat := 2

def DEL_ACROSS : Nat := 4

def DEL_SIDE : Nat := 8

structure MapRange where
  start : Int
  oldSize : Int
  newSize : Int
deriving Repr, DecidableEq

abbrev StepMap := List MapRange

/-- StepMap position mapping: returns the mapped position and the deletion
information bitmask (`_map` of prosemirror-transform, non-inverted case). -/
def stepMapGo (pos assoc : Int) : StepMap → Int → Int × Nat
  | [], diff => (pos + diff, 0)
  | r :: rs, diff =>
    if r.start > pos then (pos + diff, 0)
    else
      let e := r.start + r.oldSize
      if pos ≤ e then
        let side : Int :=
          if r.oldSize = 0 then assoc
          else if pos = r.start then -1
          else if pos = e then 1
          else assoc
        let result := r.start + diff + (if side < 0 then 0 else r.newSize)
        let del0 : Nat :=
          if pos = r.start then DEL_AFTER
          else if pos = e then DEL_BEFORE
          else DEL_ACROSS
        let del :=
          if (if assoc < 0 then pos ≠ r.start else pos ≠ e) then del0 ||| DEL_SIDE
          else del0
        (result, del)
      else
        stepMapGo pos assoc rs (diff + (r.newSize - r.oldSize))

def stepMapResult (m : StepMap) (pos assoc : Int) : Int × Nat :=
  stepMapGo pos assoc m 0

/-- Mapping over a sequence of step maps, accumulating deletion info
(`Mapping._map` without mirrored pairs). -/
def mappingGo : List StepMap → Int → Int → Nat → Int × Nat
  | [], pos, _, del => (pos, del)
  | m :: ms, pos, assoc, del =>
    let r := stepMapResult m pos assoc
    mappingGo ms r.1 assoc (del ||| r.2)

/-- Model of `tr.mapping.map(pos)` (default association 1). -/
def mappingMap (ms : List StepMap) (pos : Int) : Int :=
  (mappingGo ms pos 1 0).1

/-- Model of `tr.mapping.mapResult(pos).deleted` (default association 1):
the DEL_SIDE bit of the accumulated deletion info. -/
def mappingDeleted (ms : List StepMap) (pos : Int) : Bool :=
  ((mappingGo ms pos 1 0).2 &&& DEL_SIDE) != 0

/-! ### Anchor classification (ProseMirrorEditor.tsx, dispatchTransaction)

For each comment thread the dispatch handler resolves the current offset
(`localThreadPositionsRef.get(id) ?? (thread.position ? parseInt(...) : null)`),
skips the thread unless the offset is a number `>= 0`, maps it through the
transaction, and then classifies: outside `[0, docSize]` or mapped with the
deleted flag set, the thread is pushed to `threadsToDelete`; a changed
offset is recorded in `positionUpdates`; an unchanged offset does nothing. -/

inductive AnchorAction where
  | skipped
  | deleted
  | shifted (newPos : Int)
  | unchanged
deriving Repr, DecidableEq

/-- Current offset of a thread: the locally tracked position if present,
else the parsed stored position.  A missing or empty stored position and a
`NaN` parse both yield `none` (matching the `??`/truthiness/`isNaN` chain
in the source). -/
def currentAnchorPos (localPos : Option Int) (position : Option String) : Option Int :=
  match localPos with
  | some p => some p
  | none =>
    match position with
    | some s => posFromString s
    | none => none

/-- Classification of one thread anchor by `dispatchTransaction` for a
document-changing transaction with mapping `ms` and new document size
`docSize`. -/
def classifyAnchor (ms : List StepMap) (docSize : Int)
    (localPos : Option Int) (position : Option String) : AnchorAction :=
  match currentAnchorPos localPos position with
  | none => .skipped
  | some p =>
    if p < 0 then .skipped
    else
      let newPos := mappingMap ms p
      if newPos < 0 ∨ newPos > docSize then .deleted
      else if mappingDeleted ms p then .deleted
      else if newPos ≠ p then .shifted newPos
      else .unchanged

/-- Marker overlay filter (ProseMirrorEditor.tsx, updateMarkers): a thread
gets a marker only when its resolved offset is a number within
`[0, doc.content.size]`; invalid and out-of-bounds anchors are skipped. -/
def markerVisible (docSize : Int) (localPos : Option Int) (position : Option String) : Bool :=
  match currentAnchorPos localPos position with
  | none => false
  | some p =>
    if p < 0 ∨ p > docSize then false else true

/-! ### Reconciliation coordinator (Document.tsx)

Document content values are modelled as the strings produced by
`JSON.stringify` of the editor JSON: the handlers compare contents by
string equality and by string length, exactly as the source does.  The
refs `isLocalEditRef`, `blockContentUpdatesRef`, `currentContentRef`,
`lastContentRef`, `lastSentContentRef`, `saveTimerRef`,
`pendingPositionUpdatesRef` and `positionUpdateTimerRef` become fields of
one state record; the React `content` state handed to the editor as its
value prop is the `content` field.  Persistence calls are recorded in
`saveCalls` (contents sent by `api.put` on the document) and
`postedPositions` (batches sent to `update-positions`); the source ignores
every response body, so no response value exists in the model.  Debounce
timers are modelled by fresh identifiers: scheduling stores a fresh id and
a timer event only has an effect when its id is the one currently stored —
`clearTimeout` on reschedule is the overwrite of the stored id, after which
the cleared timer id can never match again. -/

structure DocSession where
  isLocalEdit : Bool
  blockContentUpdates : Bool
  content : String
  currentContent : String
  lastContent : String
  lastSent : String
  pendingSave : Option Nat
  pendingPos : List (String × Int)
  pendingPosTimer : Option Nat
  nextTimer : Nat
  saveCalls : List String
  postedPositions : List (List (String × String))
  threadReloadScheduled : Bool
deriving Repr, DecidableEq

/-- Insertion-order-preserving overwrite, the `Map.set` used for
`pendingPositionUpdatesRef`. -/
def setKey : List (String × Int) → String → Int → List (String × Int)
  | [], k, v => [(k, v)]
  | (k0, v0) :: rest, k, v =>
    if k0 = k then (k0, v) :: rest else (k0, v0) :: setKey rest k v

inductive DocEvent where
  /-- `handleContentChange(json)`: a local edit reached the page. -/
  | localEdit (c : String)
  /-- The debounced autosave callback scheduled with id `id` fires. -/
  | saveTimerFire (id : Nat)
  /-- A remote `content_change` delivered to the `onContentChange` handler. -/
  | remoteContentChange (c : String)
  /-- `handlePositionsChange(updates)` from the editor. -/
  | positionsChange (updates : List (String × Int))
  /-- The debounced position-batch callback scheduled with id `id` fires. -/
  | posTimerFire (id : Nat)
  /-- `handleThreadsDelete(threadIds)` with the editor buffer captured at
  its start (`editorRef.current.getContent()`, `none` when no editor view
  exists); the await chain of the round-trip is collapsed into one step,
  interleavings during the blocked window are separate events. -/
  | threadsDelete (tids : List String) (editorContent : Option String)
  /-- The trailing 3000ms safety timeout of `handleThreadsDelete` clearing
  both flags. -/
  | deleteSettled
deriving Repr, DecidableEq

/-- One step of the Document page state machine.  Each branch is a direct
translation of the corresponding handler; persistence is assumed to
succeed (the error paths only log and are claim-irrelevant except for flag
timing, noted inline). -/
def docStep (s : DocSession) : DocEvent → DocSession
  | .localEdit c =>
    -- handleContentChange: mark local edit, update refs, send on the
    -- channel (not persistence), clear and reschedule the autosave timer.
    { s with
      isLocalEdit := true
      currentContent := c
      lastContent := c
      pendingSave := some s.nextTimer
      nextTimer := s.nextTimer + 1 }
  | .saveTimerFire id =>
    if s.pendingSave = some id then
      -- The scheduled callback: blocked during comment deletion, otherwise
      -- put the locally held content, record it as sent, clear the flag.
      if s.blockContentUpdates then
        { s with pendingSave := none }
      else
        { s with
          pendingSave := none
          saveCalls := s.saveCalls ++ [s.lastContent]
          lastSent := s.lastContent
          isLocalEdit := false }
    else s
  | .remoteContentChange c =>
    -- onContentChange guard chain, in source order.
    if s.isLocalEdit then s
    else if s.currentContent = c then s
    else if s.isLocalEdit then s
    else if s.currentContent.length > c.length ∧
        s.currentContent.length - c.length > 50 then s
    else if s.blockContentUpdates then s
    else
      { s with
        content := c
        currentContent := c
        lastContent := c
        threadReloadScheduled := true }
  | .positionsChange updates =>
    if updates.isEmpty then s
    else
      { s with
        pendingPos := updates.foldl (fun m kv => setKey m kv.1 kv.2) s.pendingPos
        pendingPosTimer := some s.nextTimer
        nextTimer := s.nextTimer + 1 }
  | .posTimerFire id =>
    if s.pendingPosTimer = some id then
      let toSend := s.pendingPos.map fun kv => (kv.1, "pos:" ++ toString kv.2)
      if toSend.isEmpty then { s with pendingPosTimer := none }
      else
        { s with
          pendingPosTimer := none
          postedPositions := s.postedPositions ++ [toSend]
          pendingPos := [] }
    else s
  | .threadsDelete tids editorContent =>
    if tids.isEmpty then s
    else
      let s1 :=
        { s with
          isLocalEdit := true
          blockContentUpdates := true
          pendingSave := none
          pendingPos := s.pendingPos.filter fun kv => ¬ tids.contains kv.1 }
      match editorContent with
      | some ec =>
        -- Refs are set to the captured buffer, the threads are deleted,
        -- then the captured buffer itself is put to the server; every
        -- response body is ignored, and setContent later publishes the
        -- same captured buffer.
        { s1 with
          currentContent := ec
          lastContent := ec
          lastSent := ec
          saveCalls := s1.saveCalls ++ [ec]
          content := ec }
      | none => s1
  | .deleteSettled =>
    { s with isLocalEdit := false, blockContentUpdates := false }

def runEvents (s : DocSession) : List DocEvent → DocSession
  | [] => s
  | e :: es => runEvents (docStep s e) es

/-- Sample page state used to instantiate the coordinator theorems: a local
edit is in flight (`isLocalEdit`), the local buffer differs from the last
persisted content, and an autosave timer with id 5 is pending. -/
def demoSession : DocSession where
  isLocalEdit := true
  blockContentUpdates := false
  content := "doc-json"
  currentContent := "doc-json-local"
  lastContent := "doc-json-local"
  lastSent := "doc-json"
  pendingSave := some 5
  pendingPos := []
  pendingPosTimer := none
  nextTimer := 6
  saveCalls := []
  postedPositions := []
  threadReloadScheduled := false

/-- Events other than a thread deletion and its trailing settle timeout;
used to describe arbitrary interleavings inside the blocked window. -/
def benignEvent : DocEvent → Prop
  | .threadsDelete _ _ => False
  | .deleteSettled => False
  | _ => True

/-! ### Comment thread store: resolve (CommentPanel.tsx) -/

/-- Server thread store after `PATCH /comments/threads/{tid}` with body
`{ is_resolved: v }`: the matching thread takes the new value, the rest are
untouched; `loadThreads` then reloads exactly this server state into the
panel. -/
def patchThreadResolved : List (String × Bool) → String → Bool → List (String × Bool)
  | [], _, _ => []
  | (id, r) :: rest, tid, v =>
    if id = tid then (id, v) :: rest else (id, r) :: patchThreadResolved rest tid v

/-- `handleResolveThread(threadId, isResolved)` (CommentPanel.tsx): patch
`is_resolved` to the negation of the passed current value, then reload. -/
def handleResolveThread (threads : List (String × Bool)) (tid : String)
    (isResolved : Bool) : List (String × Bool) :=
  patchThreadResolved threads tid (!isResolved)

/-! ### Focus and selection preservation

`restoreSelectionAfterThreadsDelete` embeds the selection-restoration block
of `handleThreadsDelete` (Document.tsx): clamp the captured anchor and head
into `[0, docSize]`, fall back to the captured `from`/`to` when both clamps
collapse to zero while the captured offsets were nonzero, skip the dispatch
when the view already holds the clamped selection, and place the cursor at
the end of the document when the computed selection is out of bounds.  The
result is the selection held by the view afterwards.
`restoreSelectionAfterValueUpdate` embeds the restoration after a value-prop
replacement (ProseMirrorEditor.tsx): the captured selection is re-dispatched
only when it already lies within the new bounds, and is given up otherwise
(`none`).  `focusAfterMutation` models the focus-restoration calls: whenever
the editor had focus before the mutation and lost it, `view.focus()` is
invoked (the repeated animation-frame and timeout retries collapse to the
one modelled call). -/

structure SelectionSnap where
  anchor : Int
  head : Int
  fromPos : Int
  toPos : Int
deriving Repr, DecidableEq

def restoreSelectionAfterThreadsDelete (hadFocus : Bool) (sel : SelectionSnap)
    (current : Int × Int) (docSize : Int) : Int × Int :=
  if hadFocus then
    let anchor0 := max 0 (min sel.anchor docSize)
    let head0 := max 0 (min sel.head docSize)
    let pair :=
      if anchor0 = 0 ∧ head0 = 0 ∧ sel.anchor ≠ 0 ∧ sel.head ≠ 0 then
        (max 0 (min (if sel.fromPos = 0 then sel.anchor else sel.fromPos) docSize),
          max 0 (min (if sel.toPos = 0 then sel.head else sel.toPos) docSize))
      else (anchor0, head0)
    if current ≠ pair ∧ 0 ≤ pair.1 ∧ 0 ≤ pair.2 ∧ pair.1 ≤ docSize ∧ pair.2 ≤ docSize then
      pair
    else if ¬ current ≠ pair then current
    else if docSize > 0 then (docSize, docSize)
    else current
  else current

def restoreSelectionAfterValueUpdate (sel : SelectionSnap) (docSize : Int) :
    Option (Int × Int) :=
  if 0 ≤ sel.anchor ∧ 0 ≤ sel.head ∧ sel.anchor ≤ docSize ∧ sel.head ≤ docSize then
    some (sel.anchor, sel.head)
  else none

def focusAfterMutation (hadFocus focusedNow : Bool) : Bool :=
  if hadFocus && !focusedNow then true else focusedNow

/-! ### Sync channel message handling (useWebSocket.ts)

The `onmessage` handler wraps `JSON.parse` and a switch on the `type`
discriminator in a try/catch.  The parse outcome is modelled as
`Option WsData` (`none` when `JSON.parse` throws and the catch block only
logs); the handler writes no state other than `users` and only invokes the
page-supplied callbacks, recorded as effects.  Every branch of the model is
a total function, so nothing escapes the handler. -/

structure WsData where
  type : String
  content : Option String
  user : Option String
  users : Option (List String)
  position : Option Int
  selection : Option String
deriving Repr, DecidableEq

inductive WsEffect where
  | contentChange (content : Option String) (user : Option String)
  | cursorPosition (position : Option Int) (user : Option String)
  | selectionChange (selection : Option String) (user : Option String)
  | userJoined (user : Option String)
  | userLeft (user : Option String)
  | documentUsers (users : Option (List String))
deriving Repr, DecidableEq

def recognizedTypes : List String :=
  ["content_change", "cursor_position", "selection_change", "user_joined",
    "user_left", "document_users"]

def onWsMessage (parsed : Option WsData) (users : Option (List String)) :
    Option (List String) × List WsEffect :=
  match parsed with
  | none => (users, [])
  | some d =>
    if d.type = "content_change" then (users, [.contentChange d.content d.user])
    else if d.type = "cursor_position" then (users, [.cursorPosition d.position d.user])
    else if d.type = "selection_change" then (users, [.selectionChange d.selection d.user])
    else if d.type = "user_joined" then (users, [.userJoined d.user])
    else if d.type = "user_left" then (users, [.userLeft d.user])
    else if d.type = "document_users" then (d.users, [.documentUsers d.users])
    else (users, [])

/-! ### Theorems -/

example : posFromString "pos:42" = some 42 := by decide

example : posFromString "pos:-3" = some (-3) := by decide

example : posFromString "garbage" = none := by decide

example : posFromString "" = none := by decide

-- Spec scenario A: document "Hello world", anchor at 6, insert 4 tokens at 6.
example : mappingMap [[⟨6, 0, 4⟩]] 6 = 10 := by decide

example : mappingDeleted [[⟨6, 0, 4⟩]] 6 = false := by decide

-- Spec scenario B: delete the whole range [0,11]; anchor at 6 is deleted.
example : mappingDeleted [[⟨0, 11, 0⟩]] 6 = true := by decide

-- Scenario A through the classifier: anchor shifted from 6 to 10.
example : classifyAnchor [[⟨6, 0, 4⟩]] 15 (some 6) none = .shifted 10 := by decide

-- Scenario B through the classifier: anchor strictly inside is deleted.
example : classifyAnchor [[⟨0, 11, 0⟩]] 2 (some 6) none = .deleted := by decide

/-- C1 counterexample: the claim says an anchor at the exact start offset of
a deleted range is classified shifted, never deleted.  In the code, for the
transaction deleting the range `[1, 2)` of a size-3 document (new size 2),
the live anchor stored as `"pos:1"` sits at the exact start offset of the
deleted range, and `dispatchTransaction` classifies it deleted: the mapping
is queried with forward association, whose deleted flag is set at the start
boundary. -/
theorem C1_start_boundary_deleted_counterexample :
    classifyAnchor [[⟨1, 1, 0⟩]] 2 none (some "pos:1") = .deleted := by decide

/-- Evaluation of a one-range step map at the exact end offset of its
replaced range: forward association keeps the position on the right side,
so the result is `start + newSize` and only DEL_BEFORE is reported. -/
theorem stepMapGo_at_end (a len ins : Int) (hl : 0 < len) :
    stepMapGo (a + len) 1 [⟨a, len, ins⟩] 0 = (a + ins, DEL_BEFORE) := by
  simp only [stepMapGo]
  split_ifs <;> first | (exfalso; omega) | norm_num

/-- Evaluation of a one-range step map at the exact start offset of its
replaced range: the position maps to the range start, and forward
association sets the DEL_SIDE bit (the token after the position was
removed). -/
theorem stepMapGo_at_start (a len ins : Int) (hl : 0 < len) :
    stepMapGo a 1 [⟨a, len, ins⟩] 0 = (a, DEL_AFTER ||| DEL_SIDE) := by
  simp only [stepMapGo]
  split_ifs <;> first | (exfalso; omega) | norm_num

/-- Evaluation of a one-range step map strictly inside its replaced range:
DEL_ACROSS and DEL_SIDE are both reported. -/
theorem stepMapGo_interior (a len ins p : Int) (h1 : a < p) (h2 : p < a + len) :
    stepMapGo p 1 [⟨a, len, ins⟩] 0 = (a + ins, DEL_ACROSS ||| DEL_SIDE) := by
  simp only [stepMapGo]
  split_ifs <;> first | (exfalso; omega) | norm_num

/-- C1 (amended): boundary bias of the anchor classifier holds only at the
end boundary.  For every transaction consisting of one step that deletes
the nonempty range `[a, a + len)` from a document of size `docBefore`, a
live anchor at the exact end offset `a + len` is classified shifted (alive,
remapped to the range start `a`), while a live anchor at the exact start
offset `a` is classified deleted — the mapper is queried with the default
forward association, so only the end boundary survives. -/
theorem C1_boundary_bias_amended (a len docBefore : Int)
    (h0 : 0 ≤ a) (hl : 0 < len) (hd : a + len ≤ docBefore) :
    classifyAnchor [[⟨a, len, 0⟩]] (docBefore - len) (some (a + len)) none =
      .shifted a ∧
    classifyAnchor [[⟨a, len, 0⟩]] (docBefore - len) (some a) none = .deleted := by
  have hmapE : mappingGo [[⟨a, len, 0⟩]] (a + len) 1 0 = (a, DEL_BEFORE) := by
    simp only [mappingGo, stepMapResult, stepMapGo_at_end a len 0 hl]
    simp [Nat.zero_or]
  have hmapS : mappingGo [[⟨a, len, 0⟩]] a 1 0 = (a, DEL_AFTER ||| DEL_SIDE) := by
    simp only [mappingGo, stepMapResult, stepMapGo_at_start a len 0 hl]
    simp [Nat.zero_or]
  constructor
  · simp only [classifyAnchor, currentAnchorPos, mappingMap, mappingDeleted, hmapE]
    rw [if_neg (by omega), if_neg (by omega)]
    rw [if_neg (by decide : ¬ ((DEL_BEFORE &&& DEL_SIDE : Nat) != 0) = true)]
    rw [if_pos (by omega : (a : Int) ≠ a + len)]
  · simp only [classifyAnchor, currentAnchorPos, mappingMap, mappingDeleted, hmapS]
    rw [if_neg (by omega), if_neg (by omega)]
    rw [if_pos (by decide : (((DEL_AFTER ||| DEL_SIDE) &&& DEL_SIDE : Nat) != 0) = true)]

/-- C1 witness: the amended boundary theorem applied to the deletion of
range `[1, 2)` from a size-3 document. -/
theorem C1_boundary_bias_amended_witness :
    classifyAnchor [[⟨1, 1, 0⟩]] 2 (some 2) none = .shifted 1 ∧
    classifyAnchor [[⟨1, 1, 0⟩]] 2 (some 1) none = .deleted := by
  have h := C1_boundary_bias_amended 1 1 3 (by decide) (by decide) (by decide)
  simpa using h

/-- C2: deletion classification.  First part: a live anchor strictly inside
the range `[a, a + len)` deleted (or replaced) by a one-step transaction is
classified deleted, whatever the new document size and inserted length —
either the defensive bound check fires, or the deleted flag of the mapping
does.  Second part: for every transaction mapping, a live anchor whose
mapped offset exceeds the new document length is classified deleted. -/
theorem C2_interior_or_out_of_bounds_deleted :
    (∀ (a len ins docSize p : Int), 0 ≤ p → a < p → p < a + len →
      classifyAnchor [[⟨a, len, ins⟩]] docSize (some p) none = .deleted) ∧
    (∀ (ms : List StepMap) (docSize p : Int), 0 ≤ p →
      mappingMap ms p > docSize →
      classifyAnchor ms docSize (some p) none = .deleted) := by
  constructor
  · intro a len ins docSize p hp hap hpb
    have hmap : mappingGo [[⟨a, len, ins⟩]] p 1 0 = (a + ins, DEL_ACROSS ||| DEL_SIDE) := by
      simp only [mappingGo, stepMapResult, stepMapGo_interior a len ins p hap hpb]
      simp [Nat.zero_or]
    simp only [classifyAnchor, currentAnchorPos, mappingMap, mappingDeleted, hmap]
    rw [if_neg (by omega)]
    by_cases hbound : (a + ins < 0 ∨ a + ins > docSize)
    · rw [if_pos hbound]
    · rw [if_neg hbound]
      rw [if_pos (by decide : (((DEL_ACROSS ||| DEL_SIDE) &&& DEL_SIDE : Nat) != 0) = true)]
  · intro ms docSize p hp hgt
    simp only [classifyAnchor, currentAnchorPos]
    rw [if_neg (by omega), if_pos (Or.inr hgt)]

/-- C2 witness: the select-all deletion of scenario B (anchor at 6, delete
`[0, 11)`), and an anchor mapped past the end of a shrunken document. -/
theorem C2_interior_or_out_of_bounds_deleted_witness :
    classifyAnchor [[⟨0, 11, 0⟩]] 2 (some 6) none = .deleted ∧
    classifyAnchor [[⟨20, 0, 5⟩]] 3 (some 30) none = .deleted := by
  refine ⟨C2_interior_or_out_of_bounds_deleted.1 0 11 0 2 6 (by decide) (by decide) (by decide),
    C2_interior_or_out_of_bounds_deleted.2 [[⟨20, 0, 5⟩]] 3 30 (by decide) ?_⟩
  decide

/-- C8: invalid-anchor totality.  A thread with a null stored position, an
unparsable stored position, or a parsed offset below zero is skipped by the
anchor classifier, and the marker overlay skips every thread whose resolved
offset is missing or out of the document bounds.  All definitions involved
are total Lean functions, so no input can raise an error. -/
theorem C8_invalid_anchor_total :
    (∀ (ms : List StepMap) (docSize : Int) (s : String), posFromString s = none →
      classifyAnchor ms docSize none (some s) = .skipped) ∧
    (∀ (ms : List StepMap) (docSize : Int),
      classifyAnchor ms docSize none none = .skipped) ∧
    (∀ (ms : List StepMap) (docSize : Int) (s : String) (p : Int),
      posFromString s = some p → p < 0 →
      classifyAnchor ms docSize none (some s) = .skipped) ∧
    (∀ (docSize : Int) (s : String), posFromString s = none →
      markerVisible docSize none (some s) = false) ∧
    (∀ (docSize : Int) (localPos : Option Int) (position : Option String) (p : Int),
      currentAnchorPos localPos position = some p → (p < 0 ∨ p > docSize) →
      markerVisible docSize localPos position = false) := by
  refine ⟨?_, ?_, ?_, ?_, ?_⟩
  · intro ms docSize s hs
    simp [classifyAnchor, currentAnchorPos, hs]
  · intro ms docSize
    simp [classifyAnchor, currentAnchorPos]
  · intro ms docSize s p hs hp
    simp [classifyAnchor, currentAnchorPos, hs, hp]
  · intro docSize s hs
    simp [markerVisible, currentAnchorPos, hs]
  · intro docSize localPos position p hp hbad
    simp [markerVisible, hp, hbad]

/-- C8 witness: the totality theorem applied to an unparsable position
string, a null position, a negative stored offset, and an offset past the
end of the document. -/
theorem C8_invalid_anchor_total_witness :
    classifyAnchor [[⟨0, 2, 0⟩]] 9 none (some "garbage") = .skipped ∧
    classifyAnchor [[⟨0, 2, 0⟩]] 9 none none = .skipped ∧
    classifyAnchor [[⟨0, 2, 0⟩]] 9 none (some "pos:-7") = .skipped ∧
    markerVisible 9 none (some "garbage") = false ∧
    markerVisible 9 (some 12) none = false := by
  refine ⟨C8_invalid_anchor_total.1 _ _ "garbage" (by decide),
    C8_invalid_anchor_total.2.1 _ _,
    C8_invalid_anchor_total.2.2.1 _ _ "pos:-7" (-7) (by decide) (by decide),
    C8_invalid_anchor_total.2.2.2.1 _ "garbage" (by decide),
    C8_invalid_anchor_total.2.2.2.2 9 (some 12) none 12 rfl (by decide)⟩

theorem runEvents_append (s : DocSession) (xs ys : List DocEvent) :
    runEvents s (xs ++ ys) = runEvents (runEvents s xs) ys := by
  induction xs generalizing s with
  | nil => rfl
  | cons x xs ih => simp [runEvents, ih]

/-- C3: remote-update suppression.  While `isLocalEditRef` or
`blockContentUpdatesRef` is set, the `onContentChange` handler leaves the
page state completely unchanged — the incoming content is not applied and,
since the state records everything the handler can write, it is not queued
anywhere either.  Moreover a subsequent autosave (pending timer fires,
deletion not in progress) still persists the local buffer `lastContent`,
untouched by the dropped remote update. -/
theorem C3_remote_update_suppressed (s : DocSession) (c : String)
    (hguard : s.isLocalEdit = true ∨ s.blockContentUpdates = true) :
    docStep s (.remoteContentChange c) = s ∧
    (∀ id, s.pendingSave = some id → s.blockContentUpdates = false →
      (docStep (docStep s (.remoteContentChange c)) (.saveTimerFire id)).saveCalls =
        s.saveCalls ++ [s.lastContent]) := by
  have hdrop : docStep s (.remoteContentChange c) = s := by
    simp only [docStep]
    split_ifs <;> first | rfl | (exfalso; rcases hguard with h | h <;> simp_all)
  refine ⟨hdrop, ?_⟩
  intro id hpend hblock
  rw [hdrop]
  simp [docStep, hpend, hblock]

/-- C3 witness: a remote update arriving at the sample state (local edit
in flight) is dropped, and the pending autosave then persists the local
buffer. -/
theorem C3_remote_update_suppressed_witness :
    docStep demoSession (.remoteContentChange "remote-json") = demoSession ∧
    (docStep (docStep demoSession (.remoteContentChange "remote-json"))
      (.saveTimerFire 5)).saveCalls = demoSession.saveCalls ++ [demoSession.lastContent] := by
  have h := C3_remote_update_suppressed demoSession "remote-json" (Or.inl rfl)
  exact ⟨h.1, h.2 5 rfl rfl⟩

theorem blocked_no_saves (s : DocSession) (e : DocEvent)
    (hb : s.blockContentUpdates = true) (he : benignEvent e) :
    (docStep s e).blockContentUpdates = true ∧ (docStep s e).saveCalls = s.saveCalls := by
  cases e with
  | localEdit c => simp [docStep, hb]
  | saveTimerFire id => simp only [docStep]; split_ifs <;> simp [hb]
  | remoteContentChange c => simp only [docStep]; split_ifs <;> simp [hb]
  | positionsChange u => simp only [docStep]; split_ifs <;> simp [hb]
  | posTimerFire id => simp only [docStep]; split_ifs <;> simp [hb]
  | threadsDelete tids ec => exact absurd he (by simp [benignEvent])
  | deleteSettled => exact absurd he (by simp [benignEvent])

theorem blocked_no_saves_run (s : DocSession) (evs : List DocEvent)
    (hb : s.blockContentUpdates = true) (hall : ∀ e ∈ evs, benignEvent e) :
    (runEvents s evs).saveCalls = s.saveCalls ∧
    (runEvents s evs).blockContentUpdates = true := by
  induction evs generalizing s with
  | nil => exact ⟨rfl, hb⟩
  | cons e es ih =>
    have h1 := blocked_no_saves s e hb (hall e (by simp))
    have h2 := ih (docStep s e) h1.1 (fun x hx => hall x (by simp [hx]))
    exact ⟨h2.1.trans h1.2, h2.2⟩

/-- C4: no content regression on thread deletion.  A thread-deletion
round-trip persists exactly the editor buffer captured before deletion
started; the blocked window it opens lets no other content persistence
happen (any interleaving of local edits, timer fires, remote updates and
position traffic adds no save call), so every content value persisted
during the deletion is the captured buffer, whose length trivially does
not exceed the pre-deletion buffer length. -/
theorem C4_no_content_regression (s : DocSession) (tids : List String) (ec : String)
    (htids : tids ≠ []) :
    (docStep s (.threadsDelete tids (some ec))).saveCalls = s.saveCalls ++ [ec] ∧
    (docStep s (.threadsDelete tids (some ec))).blockContentUpdates = true ∧
    (∀ evs, (∀ e ∈ evs, benignEvent e) →
      (runEvents (docStep s (.threadsDelete tids (some ec))) evs).saveCalls =
        s.saveCalls ++ [ec]) ∧
    (∀ x ∈ (docStep s (.threadsDelete tids (some ec))).saveCalls.drop s.saveCalls.length,
      x.length ≤ ec.length) := by
  have hne : tids.isEmpty = false := by
    cases tids with
    | nil => exact absurd rfl htids
    | cons a l => rfl
  have hstep : (docStep s (.threadsDelete tids (some ec))).saveCalls =
      s.saveCalls ++ [ec] := by
    simp [docStep, hne]
  have hblock : (docStep s (.threadsDelete tids (some ec))).blockContentUpdates = true := by
    simp [docStep, hne]
  refine ⟨hstep, hblock, ?_, ?_⟩
  · intro evs hall
    exact ((blocked_no_saves_run _ evs hblock hall).1).trans hstep
  · intro x hx
    rw [hstep, List.drop_left] at hx
    simp at hx
    simp [hx]

/-- C4 witness: deleting thread `t1` from the sample state persists the
captured buffer once, and a stale remote update plus a timer fire inside
the blocked window add no further save. -/
theorem C4_no_content_regression_witness :
    (docStep demoSession (.threadsDelete ["t1"] (some "buf"))).saveCalls =
      demoSession.saveCalls ++ ["buf"] ∧
    (runEvents (docStep demoSession (.threadsDelete ["t1"] (some "buf")))
      [.remoteContentChange "stale-json", .saveTimerFire 9]).saveCalls =
      demoSession.saveCalls ++ ["buf"] := by
  have h := C4_no_content_regression demoSession ["t1"] "buf" (List.cons_ne_nil _ _)
  refine ⟨h.1, h.2.2.1 [.remoteContentChange "stale-json", .saveTimerFire 9] ?_⟩
  intro e he
  simp at he
  rcases he with h1 | h1 <;> subst h1 <;> trivial

/-- Running a burst of local edits: each edit overwrites the pending
autosave timer (clear plus reschedule), so after the burst only the timer
scheduled by the last edit is pending and the refs hold the last content. -/
theorem localEdit_burst (cs0 : List String) (c : String) (s : DocSession) :
    runEvents s ((cs0 ++ [c]).map DocEvent.localEdit) =
      { s with
        isLocalEdit := true
        currentContent := c
        lastContent := c
        pendingSave := some (s.nextTimer + cs0.length)
        nextTimer := s.nextTimer + cs0.length + 1 } := by
  induction cs0 generalizing s with
  | nil => simp [runEvents, docStep]
  | cons c0 cs0 ih =>
    simp only [List.cons_append, List.map_cons, runEvents, List.append_eq]
    rw [ih]
    simp only [docStep, List.length_cons]
    congr 1 <;> simp <;> omega

/-- C6: autosave coalescing and cancellation.  For every burst of local
edits with no timer expiry in between, no autosave call happens during the
burst, the single surviving timer carries the content after the last edit,
and every cleared timer id does nothing when its stale callback is probed. -/
theorem C6_autosave_coalescing (s : DocSession) (cs0 : List String) (c : String)
    (hb : s.blockContentUpdates = false) :
    (runEvents s ((cs0 ++ [c]).map DocEvent.localEdit)).saveCalls = s.saveCalls ∧
    (docStep (runEvents s ((cs0 ++ [c]).map DocEvent.localEdit))
      (.saveTimerFire (s.nextTimer + cs0.length))).saveCalls = s.saveCalls ++ [c] ∧
    (∀ id, id ≠ s.nextTimer + cs0.length →
      docStep (runEvents s ((cs0 ++ [c]).map DocEvent.localEdit)) (.saveTimerFire id) =
        runEvents s ((cs0 ++ [c]).map DocEvent.localEdit)) := by
  rw [localEdit_burst]
  refine ⟨rfl, ?_, ?_⟩
  · simp [docStep, hb]
  · intro id hid
    simp [docStep, Ne.symm hid]

/-- C6 witness: two edits in one debounce window from the sample state,
then the surviving timer (id 7) fires — exactly one save, with the second
content; the cancelled timer id 6 does nothing. -/
theorem C6_autosave_coalescing_witness :
    (runEvents demoSession [.localEdit "edit-one", .localEdit "edit-two"]).saveCalls =
      demoSession.saveCalls ∧
    (docStep (runEvents demoSession [.localEdit "edit-one", .localEdit "edit-two"])
      (.saveTimerFire 7)).saveCalls = demoSession.saveCalls ++ ["edit-two"] ∧
    docStep (runEvents demoSession [.localEdit "edit-one", .localEdit "edit-two"])
      (.saveTimerFire 6) =
      runEvents demoSession [.localEdit "edit-one", .localEdit "edit-two"] := by
  have h := C6_autosave_coalescing demoSession ["edit-one"] "edit-two" rfl
  exact ⟨h.1, h.2.1, h.2.2 6 (by decide)⟩

theorem setKey_setKey_same (m : List (String × Int)) (k : String) (v1 v2 : Int) :
    setKey (setKey m k v1) k v2 = setKey m k v2 := by
  induction m with
  | nil => simp [setKey]
  | cons kv rest ih =>
    obtain ⟨k0, v0⟩ := kv
    by_cases h : k0 = k <;> simp [setKey, h, ih]

/-- Running a burst of position updates for one thread: each update merges
into the pending map (overwriting the previous offset for the thread) and
overwrites the pending flush timer. -/
theorem positions_burst (t : String) (qs : List Int) (q : Int) (s : DocSession) :
    runEvents s ((qs ++ [q]).map fun v => DocEvent.positionsChange [(t, v)]) =
      { s with
        pendingPos := setKey s.pendingPos t q
        pendingPosTimer := some (s.nextTimer + qs.length)
        nextTimer := s.nextTimer + qs.length + 1 } := by
  induction qs generalizing s with
  | nil => simp [runEvents, docStep]
  | cons q0 qs ih =>
    simp only [List.cons_append, List.map_cons, runEvents, List.append_eq]
    rw [ih]
    simp only [docStep, List.length_cons]
    congr 1 <;> simp [setKey_setKey_same] <;> omega

/-- C5: position-batch coalescing.  A burst of position updates to one
thread within a single debounce window leaves exactly one pending entry
holding the final offset; when the surviving timer fires, exactly one
`update-positions` call goes out, its entry for the thread being the final
offset encoded as `pos:` followed by the integer; and every cleared timer
id does nothing. -/
theorem C5_position_batch_coalescing (s : DocSession) (t : String)
    (qs : List Int) (q : Int) (hempty : s.pendingPos = []) :
    (runEvents s ((qs ++ [q]).map fun v => DocEvent.positionsChange [(t, v)])).postedPositions
      = s.postedPositions ∧
    (runEvents s ((qs ++ [q]).map fun v => DocEvent.positionsChange [(t, v)])).pendingPos
      = [(t, q)] ∧
    (docStep (runEvents s ((qs ++ [q]).map fun v => DocEvent.positionsChange [(t, v)]))
      (.posTimerFire (s.nextTimer + qs.length))).postedPositions =
      s.postedPositions ++ [[(t, "pos:" ++ toString q)]] ∧
    (∀ id, id ≠ s.nextTimer + qs.length →
      docStep (runEvents s ((qs ++ [q]).map fun v => DocEvent.positionsChange [(t, v)]))
        (.posTimerFire id) =
        runEvents s ((qs ++ [q]).map fun v => DocEvent.positionsChange [(t, v)])) := by
  rw [positions_burst, hempty]
  refine ⟨rfl, rfl, ?_, ?_⟩
  · simp [docStep, setKey]
  · intro id hid
    simp [docStep, Ne.symm hid]

/-- C5 witness: three offsets 4, 9, 11 for thread `t1` in one window from
the sample state; the surviving timer (id 8) posts one batch containing
only `pos:11`, and the cancelled timer id 6 does nothing. -/
theorem C5_position_batch_coalescing_witness :
    (runEvents demoSession
      [.positionsChange [("t1", 4)], .positionsChange [("t1", 9)],
        .positionsChange [("t1", 11)]]).postedPositions = demoSession.postedPositions ∧
    (docStep (runEvents demoSession
      [.positionsChange [("t1", 4)], .positionsChange [("t1", 9)],
        .positionsChange [("t1", 11)]])
      (.posTimerFire 8)).postedPositions =
      demoSession.postedPositions ++ [[("t1", "pos:11")]] ∧
    docStep (runEvents demoSession
      [.positionsChange [("t1", 4)], .positionsChange [("t1", 9)],
        .positionsChange [("t1", 11)]])
      (.posTimerFire 6) =
      runEvents demoSession
        [.positionsChange [("t1", 4)], .positionsChange [("t1", 9)],
          .positionsChange [("t1", 11)]] := by
  have h := C5_position_batch_coalescing demoSession "t1" [4, 9] 11 rfl
  exact ⟨h.1, h.2.2.1, h.2.2.2 6 (by decide)⟩

theorem patchThreadResolved_idem (ts : List (String × Bool)) (tid : String) (v : Bool) :
    patchThreadResolved (patchThreadResolved ts tid v) tid v =
      patchThreadResolved ts tid v := by
  induction ts with
  | nil => rfl
  | cons kv rest ih =>
    obtain ⟨id, r⟩ := kv
    by_cases h : id = tid <;> simp [patchThreadResolved, h, ih]

/-- C7: idempotent resolve.  `handleResolveThread` patches the thread to an
absolute resolution value determined by its argument, so calling it twice
with `true` leaves every thread store in exactly the state one call
produces. -/
theorem C7_resolve_idempotent (ts : List (String × Bool)) (tid : String) :
    handleResolveThread (handleResolveThread ts tid true) tid true =
      handleResolveThread ts tid true :=
  patchThreadResolved_idem ts tid false

/-- C9 counterexample: the claim says every reconciliation-triggered
mutation with focus re-clamps the captured selection to the new bounds and
reapplies it.  The value-prop replacement path does not clamp: with a
captured selection at offset 5 and a new document of size 2, no selection
is reapplied at all (the clamped selection would be `(2, 2)`). -/
theorem C9_value_update_no_clamp_counterexample :
    restoreSelectionAfterValueUpdate ⟨5, 5, 5, 5⟩ 2 = none := by decide

/-- C9 (amended): after a thread-deletion mutation performed with focus,
the selection held by the view is the captured anchor and head clamped to
the new document bounds; after a value-prop replacement the captured
selection is reapplied only when it already lies within the new bounds and
is abandoned otherwise (no clamping on that path); in both paths focus is
restored to the editing surface whenever it had focus before and lost it. -/
theorem C9_selection_reclamp_amended :
    (∀ (sel : SelectionSnap) (current : Int × Int) (docSize : Int),
      0 ≤ sel.anchor → 0 ≤ sel.head → 0 < docSize →
      restoreSelectionAfterThreadsDelete true sel current docSize =
        (max 0 (min sel.anchor docSize), max 0 (min sel.head docSize))) ∧
    (∀ (sel : SelectionSnap) (docSize : Int),
      0 ≤ sel.anchor → 0 ≤ sel.head → sel.anchor ≤ docSize → sel.head ≤ docSize →
      restoreSelectionAfterValueUpdate sel docSize = some (sel.anchor, sel.head)) ∧
    (∀ (sel : SelectionSnap) (docSize : Int),
      ¬ (0 ≤ sel.anchor ∧ 0 ≤ sel.head ∧ sel.anchor ≤ docSize ∧ sel.head ≤ docSize) →
      restoreSelectionAfterValueUpdate sel docSize = none) ∧
    (∀ focusedNow, focusAfterMutation true focusedNow = true) := by
  refine ⟨?_, ?_, ?_, ?_⟩
  · intro sel current docSize ha hh hd
    have hfb : ¬ (max 0 (min sel.anchor docSize) = 0 ∧ max 0 (min sel.head docSize) = 0 ∧
        sel.anchor ≠ 0 ∧ sel.head ≠ 0) := by
      rintro ⟨h1, _, h3, _⟩
      omega
    have hb1 : (0 : Int) ≤ max 0 (min sel.anchor docSize) := le_max_left _ _
    have hb2 : (0 : Int) ≤ max 0 (min sel.head docSize) := le_max_left _ _
    have hb3 : max 0 (min sel.anchor docSize) ≤ docSize := by omega
    have hb4 : max 0 (min sel.head docSize) ≤ docSize := by omega
    simp only [restoreSelectionAfterThreadsDelete]
    split_ifs <;> simp_all
  · intro sel docSize ha hh h1 h2
    simp [restoreSelectionAfterValueUpdate, ha, hh, h1, h2]
  · intro sel docSize hbad
    simp [restoreSelectionAfterValueUpdate, hbad]
  · intro focusedNow
    cases focusedNow <;> rfl

/-- C9 witness: the amended theorem at a captured selection `(3, 7)`
clamped into a document of size 5 after thread deletion, an in-bounds
selection preserved across a value-prop update, the out-of-bounds
counterpart abandoned, and focus restored. -/
theorem C9_selection_reclamp_amended_witness :
    restoreSelectionAfterThreadsDelete true ⟨3, 7, 3, 7⟩ (0, 0) 5 = (3, 5) ∧
    restoreSelectionAfterValueUpdate ⟨1, 2, 1, 2⟩ 5 = some (1, 2) ∧
    restoreSelectionAfterValueUpdate ⟨9, 2, 9, 2⟩ 5 = none ∧
    focusAfterMutation true false = true := by
  have h := C9_selection_reclamp_amended
  refine ⟨?_, h.2.1 ⟨1, 2, 1, 2⟩ 5 (by decide) (by decide) (by decide) (by decide),
    h.2.2.1 ⟨9, 2, 9, 2⟩ 5 (by decide), h.2.2.2 false⟩
  have := h.1 ⟨3, 7, 3, 7⟩ (0, 0) 5 (by decide) (by decide) (by decide)
  simpa using this

/-- C10: sync-channel robustness.  A message whose payload fails to parse
is swallowed by the catch block, and a message whose type discriminator is
not one of the six recognized types only logs: in both cases the user
state is unchanged and no callback is invoked, so document and thread
state cannot change either; the handler is a total function, so nothing is
thrown out of it. -/
theorem C10_ws_message_robust :
    (∀ users, onWsMessage none users = (users, [])) ∧
    (∀ (d : WsData) (users : Option (List String)), d.type ∉ recognizedTypes →
      onWsMessage (some d) users = (users, [])) := by
  constructor
  · intro users
    rfl
  · intro d users hd
    simp [recognizedTypes] at hd
    obtain ⟨h1, h2, h3, h4, h5, h6⟩ := hd
    simp [onWsMessage, h1, h2, h3, h4, h5, h6]

/-- C10 witness: an unparsable payload and an unknown `bogus` message both
leave the user list untouched and invoke no callback. -/
theorem C10_ws_message_robust_witness :
    onWsMessage none (some ["alice"]) = (some ["alice"], []) ∧
    onWsMessage (some ⟨"bogus", none, none, none, none, none⟩) (some ["alice"]) =
      (some ["alice"], []) := by
  refine ⟨C10_ws_message_robust.1 _,
    C10_ws_message_robust.2 ⟨"bogus", none, none, none, none, none⟩ _ ?_⟩
  decide

end Mukit
